import Mathlib

/-!
Verification development for the Parserr repository.

The Go sources (`renamer.go` with its `api` package, and `parser/clean.go`)
are shallowly embedded below: pure logic is translated into Lean functions,
and every interaction with the outside world (HTTP responses from the media
server, filesystem contents, I/O failures, command polling results) is made
explicit as an oracle argument, so that each embedded function is a pure,
executable description of what the Go code does for a given behaviour of its
environment.  Machine integers from the Go code that are only ever used as
identifiers, counters, page numbers, or season/episode numbers are modelled
as `Nat`.
-/

namespace Parserr

/-- Season/episode reference carried by queue entries and history records
(the `Episode` fields used by `renamer.go`: `SeasonNumber`, `EpisodeNumber`). -/
structure Episode where
  SeasonNumber : Nat
  EpisodeNumber : Nat
  deriving DecidableEq

/-- One element of a queue entry's `StatusMessages` array (field `Title`). -/
structure StatusMessage where
  Title : String
  deriving DecidableEq

/-- Destination series for a queue entry (field `Path`). -/
structure Series where
  Path : String
  deriving DecidableEq

/-- Embedding of `api.QueueElem`: the fields of a queue entry that
`renamer.go` and `parser/clean.go` read. -/
structure QueueElem where
  ID : Nat
  DownloadID : String
  Title : String
  Status : String
  TrackedDownloadStatus : String
  Episode : Parserr.Episode
  Series : Parserr.Series
  StatusMessages : List StatusMessage
  deriving DecidableEq

/-- Embedding of `api.HistoryRecord`: the fields read by `renamer.go`. -/
structure HistoryRecord where
  DownloadID : String
  SourceTitle : String
  TrackedDownloadStatus : String
  Episode : Parserr.Episode
  deriving DecidableEq

/-- Embedding of `api.History`: one in-memory (possibly merged) page set. -/
structure History where
  Page : Nat
  PageSize : Nat
  Records : List HistoryRecord
  deriving DecidableEq

/-- Embedding of `Show` from `renamer.go`: a matched queue entry / history
record pair together with the `HasBeenRenamed` flag. -/
structure Show where
  HistoryRecord : Parserr.HistoryRecord
  QueueElement : QueueElem
  HasBeenRenamed : Bool
  deriving DecidableEq

/-- Embedding of `api.CommandStatus` (fields `ID` and `State` used by
`ExecuteCommandAndWait`). -/
structure CommandStatus where
  ID : Nat
  State : String
  deriving DecidableEq

/-- Embedding of `api.CommandBody` (only the `Name` field is observable in
the behaviour verified here). -/
structure CommandBody where
  Name : String
  deriving DecidableEq

/-- Constant `api.StatusCompleted`. -/
def StatusCompleted : String := "Completed"

/-- Constant `api.TrackedDownloadStatusWarning`. -/
def TrackedDownloadStatusWarning : String := "Warning"

/-- Modelled from the spec: the constant `api.CommandStateCompleted` is
declared in an `api` source file that is not part of the sources here (only
its use in `ExecuteCommandAndWait` is); the spec names the terminal command
state "completed". -/
def CommandStateCompleted : String := "completed"

/-! ## Filesystem model and `moveFromTo` (FileRelocator) -/

/-- Filesystem contents: a map from path to optional byte content.  `none`
means the path holds no file. -/
abbrev FS := String → Option (List Nat)

/-- Pointwise update of a filesystem map. -/
def fsUpdate (fs : FS) (p : String) (v : Option (List Nat)) : FS :=
  fun q => if q = p then v else fs q

/-- Embedding of `moveFromTo` from `renamer.go`.  Operating-system outcomes
are supplied as oracles: `createFails` says whether `os.Create(destPath)`
fails, `copyFail = some k` says that `io.Copy` reports an error after having
written the first `k` bytes of the source to the destination (`none` means
the copy succeeds), and `removeFails` says whether `os.Remove(sourcePath)`
fails.  `os.Create` truncates the destination on success.  The Go error
strings wrap an operating-system error text which is elided here; the
leading fixed part of each message is kept. -/
def moveFromTo (fs : FS) (createFails : Bool) (copyFail : Option Nat)
    (removeFails : Bool) (sourcePath destPath : String) : FS × Except String Unit :=
  match fs sourcePath with
  | none => (fs, .error "couldn't open source file")
  | some content =>
    if createFails then (fs, .error "couldn't open dest file")
    else
      let fs1 := fsUpdate fs destPath (some [])
      match copyFail with
      | some k =>
        (fsUpdate fs1 destPath (some (content.take k)), .error "writing to output file failed")
      | none =>
        let fs2 := fsUpdate fs1 destPath (some content)
        if removeFails then (fs2, .error "Failed removing original file")
        else (fsUpdate fs2 sourcePath none, .ok ())

/-- Concrete two-byte source file used to exercise `moveFromTo`. -/
def fsC5 : FS := fun p => if p = "/a/src" then some [7, 8] else none

/-- Claim C5 counterexample: when the copy fails after 1 of 2 bytes, the
destination afterwards holds a truncated 1-byte file — neither absent nor a
full copy of the source content. -/
theorem moveFromTo_partial_counterexample :
    ¬(((moveFromTo fsC5 false (some 1) false "/a/src" "/b/dst").1 "/b/dst" = none) ∨
      ((moveFromTo fsC5 false (some 1) false "/a/src" "/b/dst").1 "/b/dst" =
        fsC5 "/a/src")) := by decide

/-- Claim C5 (amended): when the copy step fails after `k` bytes, the
destination is left holding exactly the first `k` bytes of the source — a
possibly partial (truncated) file — while the source itself is untouched
and the operation reports the copy error. -/
theorem moveFromTo_copy_fail (fs : FS) (k : Nat) (rf : Bool) (src dst : String)
    (content : List Nat) (hsrc : fs src = some content) (hne : src ≠ dst) :
    (moveFromTo fs false (some k) rf src dst).1 dst = some (content.take k) ∧
    (moveFromTo fs false (some k) rf src dst).1 src = some content ∧
    (moveFromTo fs false (some k) rf src dst).2 =
      .error "writing to output file failed" := by
  simp [moveFromTo, hsrc, fsUpdate, hne]

/-- Witness for the amended claim C5 at a concrete input. -/
theorem moveFromTo_copy_fail_witness :
    (moveFromTo fsC5 false (some 1) false "/a/src" "/b/dst").1 "/b/dst" = some [7] ∧
    (moveFromTo fsC5 false (some 1) false "/a/src" "/b/dst").1 "/a/src" = some [7, 8] ∧
    (moveFromTo fsC5 false (some 1) false "/a/src" "/b/dst").2 =
      .error "writing to output file failed" := by
  have h := moveFromTo_copy_fail fsC5 1 false "/a/src" "/b/dst" [7, 8]
    (by decide) (by decide)
  exact ⟨h.1.trans (by decide), h.2.1, h.2.2⟩

/-! ## `CleanFixedShows` (QueueCleaner) -/

/-- Modelled from the spec: `api.Media`, used by `parser/clean.go`, is
declared in an `api` source file that is not part of the sources here.  Per
the spec it is the matched-item aggregate consumed by the cleaner: it pairs
a queue entry with the mutable "has been renamed" flag, and its
`HasBeenDetected` presence check against freshly fetched server state is
modelled as a per-item oracle bit. -/
structure Media where
  QueueElement : QueueElem
  HasBeenRenamed : Bool
  HasBeenDetected : Bool
  deriving DecidableEq

/-- Embedding of `API.DeleteQueueItem` from the `api` package.  The HTTP
layer is abstracted by the oracle `statusCode`, giving the response status
code the server returns for deleting a given queue id. -/
def DeleteQueueItem (statusCode : Nat → Nat) (id : Nat) : Except String Unit :=
  if statusCode id = 200 then .ok ()
  else .error ("error deleting item from queue, status code " ++ toString (statusCode id))

/-- Error message of a deletion outcome, if any (`err.Error()` in Go). -/
def errMsg? : Except String Unit → Option String
  | .error e => some e
  | .ok _ => none

/-- Loop body of `CleanFixedShows`: walk the media files in order; for each
one that has been renamed and detected, attempt the remote deletion and
record its id; accumulate the error message of every failed deletion.
Returns (ids of attempted deletions in order, error strings in order). -/
def cleanLoop (statusCode : Nat → Nat) : List Media → List Nat × List String
  | [] => ([], [])
  | s :: rest =>
    if s.HasBeenRenamed && s.HasBeenDetected then
      match DeleteQueueItem statusCode s.QueueElement.ID with
      | .ok _ =>
        (s.QueueElement.ID :: (cleanLoop statusCode rest).1, (cleanLoop statusCode rest).2)
      | .error e =>
        (s.QueueElement.ID :: (cleanLoop statusCode rest).1, e :: (cleanLoop statusCode rest).2)
    else cleanLoop statusCode rest

/-- Embedding of `CleanFixedShows` from `parser/clean.go`.  `rescan` is the
outcome of `ExecuteCommandAndWait(api.NewRescanSeriesCommand())`, passed in
as an argument (the waiter itself is embedded separately).  The result pairs
the trace of queue ids on which a remote deletion was attempted, in order,
with the function's returned error: `nil` when no deletion failed, otherwise
the accumulated error strings joined by ", ". -/
def CleanFixedShows (statusCode : Nat → Nat) (rescan : Except String CommandStatus)
    (mediaFiles : List Media) : List Nat × Except String Unit :=
  match rescan with
  | .error e => ([], .error e)
  | .ok _ =>
    let r := cleanLoop statusCode mediaFiles
    if r.2.length > 0 then (r.1, .error (String.intercalate ", " r.2))
    else (r.1, .ok ())

/-- Items of the media list that are both renamed and detected. -/
def processedItems (mediaFiles : List Media) : List Media :=
  mediaFiles.filter (fun s => s.HasBeenRenamed && s.HasBeenDetected)

/-- Failure messages the deletion oracle produces on the processed items. -/
def deletionFailures (statusCode : Nat → Nat) (mediaFiles : List Media) : List String :=
  (processedItems mediaFiles).filterMap
    (fun s => errMsg? (DeleteQueueItem statusCode s.QueueElement.ID))

theorem cleanLoop_spec (statusCode : Nat → Nat) (mediaFiles : List Media) :
    cleanLoop statusCode mediaFiles =
      ((processedItems mediaFiles).map (fun s => s.QueueElement.ID),
        deletionFailures statusCode mediaFiles) := by
  induction mediaFiles with
  | nil => rfl
  | cons s rest ih =>
    simp only [cleanLoop, processedItems, deletionFailures, List.filter_cons] at *
    by_cases hflag : (s.HasBeenRenamed && s.HasBeenDetected) = true
    · simp only [hflag, if_true]
      cases hdel : DeleteQueueItem statusCode s.QueueElement.ID with
      | error e => simp [ih, hdel, errMsg?, List.filterMap_cons]
      | ok u => simp [ih, hdel, errMsg?, List.filterMap_cons]
    · simp [hflag, ih]

/-- Claim C8: during cleanup every renamed-and-detected item gets a remote
deletion attempt (the attempted-id trace is exactly the renamed-and-detected
items in order, independent of which deletions fail); failure messages are
accumulated, and the cleanup returns no error when no deletion failed and
otherwise one combined error joining every individual failure message. -/
theorem cleanFixedShows_aggregates_failures (statusCode : Nat → Nat)
    (cs : CommandStatus) (mediaFiles : List Media) :
    (CleanFixedShows statusCode (.ok cs) mediaFiles).1 =
      (processedItems mediaFiles).map (fun s => s.QueueElement.ID) ∧
    (CleanFixedShows statusCode (.ok cs) mediaFiles).2 =
      (if deletionFailures statusCode mediaFiles = [] then .ok ()
       else .error (String.intercalate ", " (deletionFailures statusCode mediaFiles))) := by
  have h := cleanLoop_spec statusCode mediaFiles
  constructor
  · simp only [CleanFixedShows, h]
    split <;> rfl
  · simp only [CleanFixedShows, h]
    rcases hf : deletionFailures statusCode mediaFiles with _ | ⟨e, es⟩
    · simp
    · simp

/-! ## `loadFailedShows` (QueueHistoryMatcher) -/

/-- Embedding of `API.GetHistory` from the `api` package.  The remote server
is the oracle `src`, giving the history page returned for each requested
page number (transport is abstracted; the JSON decode is the identity here).
As in the Go code, a page whose `PageSize` is zero is turned into the error
"history fetched 0 results, no more items". -/
def GetHistory (src : Nat → History) (page : Nat) : Except String History :=
  if (src page).PageSize = 0 then .error "history fetched 0 results, no more items"
  else .ok (src page)

/-- Embedding of `addPageToHistory` from `renamer.go`: fetch the next page
and append its records; a fetch error is propagated. -/
def addPageToHistory (src : Nat → History) (h : History) : Except String History :=
  match GetHistory src (h.Page + 1) with
  | .error e => .error e
  | .ok newHistory =>
    .ok { h with Page := h.Page + 1, Records := h.Records ++ newHistory.Records }

/-- The match test of the inner loop of `loadFailedShows`: same download id,
same episode number, same season number. -/
def isFailedMatch (q : QueueElem) (he : HistoryRecord) : Bool :=
  q.DownloadID == he.DownloadID &&
    q.Episode.EpisodeNumber == he.Episode.EpisodeNumber &&
    q.Episode.SeasonNumber == he.Episode.SeasonNumber

/-- All shows the inner loop of `loadFailedShows` appends for queue entry
`q` when scanning `records`: one per matching record, in record order, with
`HasBeenRenamed` at its zero value `false`. -/
def matchingShows (q : QueueElem) (records : List HistoryRecord) : List Show :=
  (records.filter (isFailedMatch q)).map
    (fun he => { HistoryRecord := he, QueueElement := q, HasBeenRenamed := false })

/-- The candidacy test of `loadFailedShows`: the Go code skips an entry when
it is not completed or not in warning state, so an entry is processed
exactly when it is both. -/
def isCandidate (q : QueueElem) : Bool :=
  q.Status == StatusCompleted && q.TrackedDownloadStatus == TrackedDownloadStatusWarning

/-- Decidable equality for `Except`, used to evaluate run outcomes on
concrete inputs. -/
instance exceptDecEq {ε α : Type} [DecidableEq ε] [DecidableEq α] :
    DecidableEq (Except ε α) := fun a b =>
  match a, b with
  | .error e, .error f =>
    if h : e = f then .isTrue (by rw [h])
    else .isFalse fun hc => Except.noConfusion hc fun hef => h hef
  | .error _, .ok _ => .isFalse fun hc => Except.noConfusion hc
  | .ok _, .error _ => .isFalse fun hc => Except.noConfusion hc
  | .ok x, .ok y =>
    if h : x = y then .isTrue (by rw [h])
    else .isFalse fun hc => Except.noConfusion hc fun hxy => h hxy

/-- Per-entry pagination loop of `loadFailedShows`: Go decrements `i` and
re-runs the scan of the same entry over the grown record set until a match
is found or `addPageToHistory` fails.  That retry loop is embedded with a
`fuel` bound on the number of page fetches (the Go loop has no such bound;
every theorem below either holds for all `fuel` or supplies enough of it). -/
def seekMatches (src : Nat → History) (q : QueueElem) :
    Nat → History → Except String (List Show × History)
  | 0, hist =>
    if (matchingShows q hist.Records).isEmpty then .error "pagination fuel exhausted"
    else .ok (matchingShows q hist.Records, hist)
  | fuel + 1, hist =>
    if (matchingShows q hist.Records).isEmpty then
      match addPageToHistory src hist with
      | .error e => .error e
      | .ok h2 => seekMatches src q fuel h2
    else .ok (matchingShows q hist.Records, hist)

/-- Outer loop of `loadFailedShows` over the queue, threading the in-memory
history set from entry to entry exactly as the Go index loop does. -/
def loadShowsLoop (src : Nat → History) (fuel : Nat) :
    List QueueElem → History → Except String (List Show)
  | [], _ => .ok []
  | q :: rest, hist =>
    if isCandidate q then
      match seekMatches src q fuel hist with
      | .error e => .error e
      | .ok (ms, h2) =>
        match loadShowsLoop src fuel rest h2 with
        | .error e => .error e
        | .ok tail => .ok (ms ++ tail)
    else loadShowsLoop src fuel rest hist

/-- Embedding of `loadFailedShows` from `renamer.go`: the queue is the
result of `api.GetQueue()` (supplied directly), the first history page is
fetched, and the queue is scanned.  Any error aborts the whole function. -/
def loadFailedShows (src : Nat → History) (queue : List QueueElem) (fuel : Nat) :
    Except String (List Show) :=
  match GetHistory src 1 with
  | .error e => .error e
  | .ok hist => loadShowsLoop src fuel queue hist

theorem seekMatches_ok (src : Nat → History) (q : QueueElem) :
    ∀ fuel hist ms h2, seekMatches src q fuel hist = .ok (ms, h2) →
      ms = matchingShows q h2.Records ∧ ms ≠ [] := by
  intro fuel
  induction fuel with
  | zero =>
    intro hist ms h2 h
    rw [seekMatches] at h
    by_cases he : (matchingShows q hist.Records).isEmpty
    · simp [he] at h
    · simp only [he, Bool.false_eq_true, if_false, Except.ok.injEq, Prod.mk.injEq] at h
      obtain ⟨h1, h2⟩ := h
      subst h1; subst h2
      exact ⟨rfl, by simpa [List.isEmpty_iff] using he⟩
  | succ fuel ih =>
    intro hist ms h2 h
    rw [seekMatches] at h
    by_cases he : (matchingShows q hist.Records).isEmpty
    · simp only [he, if_true] at h
      cases hadd : addPageToHistory src hist with
      | error e => rw [hadd] at h; exact absurd h (by simp)
      | ok hnew => rw [hadd] at h; exact ih hnew ms h2 h
    · simp only [he, Bool.false_eq_true, if_false, Except.ok.injEq, Prod.mk.injEq] at h
      obtain ⟨h1, h2⟩ := h
      subst h1; subst h2
      exact ⟨rfl, by simpa [List.isEmpty_iff] using he⟩

theorem seekMatches_found (src : Nat → History) (q : QueueElem) (fuel : Nat)
    (hist : History) (hm : matchingShows q hist.Records ≠ []) :
    seekMatches src q fuel hist = .ok (matchingShows q hist.Records, hist) := by
  cases fuel with
  | zero => rw [seekMatches]; simp [List.isEmpty_iff, hm]
  | succ n => rw [seekMatches]; simp [List.isEmpty_iff, hm]

theorem matchingShows_mem (q : QueueElem) (records : List HistoryRecord) (s : Show)
    (hs : s ∈ matchingShows q records) :
    s.QueueElement = q ∧ isFailedMatch q s.HistoryRecord = true ∧
      s.HistoryRecord ∈ records ∧ s.HasBeenRenamed = false := by
  simp only [matchingShows, List.mem_map, List.mem_filter] at hs
  obtain ⟨he, ⟨hmem, hmatch⟩, rfl⟩ := hs
  exact ⟨rfl, hmatch, hmem, rfl⟩

theorem loadShowsLoop_mem (src : Nat → History) (fuel : Nat) :
    ∀ queue hist shows, loadShowsLoop src fuel queue hist = .ok shows →
      ∀ s ∈ shows, isCandidate s.QueueElement = true ∧
        isFailedMatch s.QueueElement s.HistoryRecord = true ∧
        s.HasBeenRenamed = false := by
  intro queue
  induction queue with
  | nil =>
    intro hist shows h s hs
    simp only [loadShowsLoop, Except.ok.injEq] at h
    subst h
    exact absurd hs (List.not_mem_nil s)
  | cons q rest ih =>
    intro hist shows h s hs
    rw [loadShowsLoop] at h
    by_cases hc : isCandidate q
    · simp only [hc, if_true] at h
      split at h
      · exact absurd h (by simp)
      · rename_i ms h2 hseek
        split at h
        · exact absurd h (by simp)
        · rename_i tail htail
          simp only [Except.ok.injEq] at h
          subst h
          rcases List.mem_append.mp hs with hms | htl
          · obtain ⟨hm, _⟩ := seekMatches_ok src q fuel hist ms h2 hseek
            subst hm
            obtain ⟨hqe, hfm, _, hren⟩ := matchingShows_mem q h2.Records s hms
            rw [hqe]
            exact ⟨hc, hfm, hren⟩
          · exact ih h2 tail htail s htl
    · simp only [hc, Bool.false_eq_true, if_false] at h
      exact ih hist shows h s hs

/-- Claim C6: a queue entry that is not simultaneously in status
"Completed" and tracked-download status "Warning" is never the queue
element of any emitted matched item. -/
theorem loadFailedShows_skips_noncandidates (src : Nat → History)
    (queue : List QueueElem) (fuel : Nat) (q : QueueElem) (shows : List Show) (s : Show)
    (hrun : loadFailedShows src queue fuel = .ok shows) (hs : s ∈ shows)
    (hq : ¬(q.Status = StatusCompleted ∧
      q.TrackedDownloadStatus = TrackedDownloadStatusWarning)) :
    s.QueueElement ≠ q := by
  intro hqe
  unfold loadFailedShows at hrun
  cases hget : GetHistory src 1 with
  | error e => rw [hget] at hrun; exact absurd hrun (by simp)
  | ok hist =>
    rw [hget] at hrun
    obtain ⟨hcand, _, _⟩ := loadShowsLoop_mem src fuel queue hist shows hrun s hs
    rw [hqe] at hcand
    simp only [isCandidate, Bool.and_eq_true, beq_iff_eq] at hcand
    exact hq hcand

/-- Concrete candidate queue entry used by the matcher examples. -/
def qM : QueueElem :=
  { ID := 7, DownloadID := "dl1", Title := "ShowA", Status := "Completed",
    TrackedDownloadStatus := "Warning",
    Episode := { SeasonNumber := 2, EpisodeNumber := 5 },
    Series := { Path := "/tv/ShowA" },
    StatusMessages := [{ Title := "ShowA.S02E05.GRP" }] }

/-- Concrete non-candidate queue entry (completed but not flagged). -/
def qBad : QueueElem :=
  { ID := 8, DownloadID := "dl2", Title := "ShowB", Status := "Completed",
    TrackedDownloadStatus := "Ok",
    Episode := { SeasonNumber := 1, EpisodeNumber := 1 },
    Series := { Path := "/tv/ShowB" },
    StatusMessages := [] }

/-- Concrete history record matching `qM`. -/
def hrM : HistoryRecord :=
  { DownloadID := "dl1", SourceTitle := "ShowA.S02E05.GRP",
    TrackedDownloadStatus := "Warning",
    Episode := { SeasonNumber := 2, EpisodeNumber := 5 } }

/-- Second matching history record, distinct source title. -/
def hrM2 : HistoryRecord :=
  { DownloadID := "dl1", SourceTitle := "ShowA.S02E05.OTHER",
    TrackedDownloadStatus := "Warning",
    Episode := { SeasonNumber := 2, EpisodeNumber := 5 } }

/-- History source whose first page holds the single record `hrM`. -/
def srcOne : Nat → History :=
  fun p => if p = 1 then { Page := 1, PageSize := 10, Records := [hrM] }
    else { Page := p, PageSize := 0, Records := [] }

/-- Witness for claim C6 at a concrete input: the run emits exactly the
match for `qM`, and its queue element is not the non-candidate `qBad`. -/
theorem loadFailedShows_skips_noncandidates_witness :
    ({ HistoryRecord := hrM, QueueElement := qM, HasBeenRenamed := false } :
      Show).QueueElement ≠ qBad :=
  loadFailedShows_skips_noncandidates srcOne [qBad, qM] 1 qBad
    [{ HistoryRecord := hrM, QueueElement := qM, HasBeenRenamed := false }]
    { HistoryRecord := hrM, QueueElement := qM, HasBeenRenamed := false }
    (by decide) (by decide) (by decide)

/-- History source whose first page holds two records both matching `qM`. -/
def srcTwo : Nat → History :=
  fun p => if p = 1 then { Page := 1, PageSize := 10, Records := [hrM, hrM2] }
    else { Page := p, PageSize := 0, Records := [] }

/-- Claim C3 counterexample: with two in-memory history records sharing the
candidate entry's download id, season and episode, the matcher emits TWO
matched items for that single queue entry, not exactly one — the inner scan
does not stop at the first match. -/
theorem loadFailedShows_two_matches_counterexample :
    loadFailedShows srcTwo [qM] 1 =
      .ok [{ HistoryRecord := hrM, QueueElement := qM, HasBeenRenamed := false },
           { HistoryRecord := hrM2, QueueElement := qM, HasBeenRenamed := false }] := by
  decide

/-- Claim C3 (amended): for a candidate queue entry, the matcher emits one
matched item per matching in-memory history record (in record order), and
when at least one record matches it moves on to the next queue entry with
the in-memory history set unchanged, fetching no further pages. -/
theorem loadShowsLoop_emits_all_matches (src : Nat → History) (fuel : Nat)
    (q : QueueElem) (rest : List QueueElem) (hist : History)
    (hc : isCandidate q = true) (hm : matchingShows q hist.Records ≠ []) :
    loadShowsLoop src fuel (q :: rest) hist =
      match loadShowsLoop src fuel rest hist with
      | .error e => .error e
      | .ok tail => .ok (matchingShows q hist.Records ++ tail) := by
  rw [loadShowsLoop, seekMatches_found src q fuel hist hm]
  simp [hc]

/-- Witness for the amended claim C3 at a concrete input. -/
theorem loadShowsLoop_emits_all_matches_witness :
    loadShowsLoop srcTwo 1 [qM]
        { Page := 1, PageSize := 10, Records := [hrM, hrM2] } =
      match loadShowsLoop srcTwo 1 []
          { Page := 1, PageSize := 10, Records := [hrM, hrM2] } with
      | .error e => .error e
      | .ok tail =>
        .ok (matchingShows qM [hrM, hrM2] ++ tail) :=
  loadShowsLoop_emits_all_matches srcTwo 1 qM []
    { Page := 1, PageSize := 10, Records := [hrM, hrM2] }
    (by decide) (by decide)

/-- History record that does not match `qM` (different download id). -/
def hrM2noMatch : HistoryRecord :=
  { DownloadID := "other", SourceTitle := "Unrelated.S01E01",
    TrackedDownloadStatus := "Warning",
    Episode := { SeasonNumber := 1, EpisodeNumber := 1 } }

/-- History source that never matches: one nonempty first page, empty after. -/
def srcExhaust : Nat → History :=
  fun p => if p = 1 then { Page := 1, PageSize := 10, Records := [hrM2noMatch] }
    else { Page := p, PageSize := 0, Records := [] }

/-- Claim C1 counterexample: a candidate queue entry with no matching
history record, against a history source whose second page reports zero
page-size, makes the whole run fail with the pagination error — the entry is
not abandoned-and-skipped, and no (empty) show list is returned. -/
theorem loadFailedShows_exhaustion_counterexample :
    loadFailedShows srcExhaust [qM] 5 =
      .error "history fetched 0 results, no more items" := by
  decide

/-- Claim C1 (amended): when a candidate queue entry has no match in the
in-memory records and the next history page reports zero page-size, the
pagination error aborts `loadFailedShows` as a whole: the loop returns that
error and no matched items at all, instead of abandoning the one entry and
continuing. -/
theorem loadShowsLoop_exhaustion_aborts_run (src : Nat → History) (fuel : Nat)
    (q : QueueElem) (rest : List QueueElem) (hist : History)
    (hc : isCandidate q = true)
    (hm : matchingShows q hist.Records = [])
    (hpage : (src (hist.Page + 1)).PageSize = 0) :
    loadShowsLoop src (fuel + 1) (q :: rest) hist =
      .error "history fetched 0 results, no more items" := by
  rw [loadShowsLoop, seekMatches]
  simp [hc, hm, addPageToHistory, GetHistory, hpage]

/-- Witness for the amended claim C1 at a concrete input. -/
theorem loadShowsLoop_exhaustion_aborts_run_witness :
    loadShowsLoop srcExhaust 5 [qM]
        { Page := 1, PageSize := 10, Records := [hrM2noMatch] } =
      .error "history fetched 0 results, no more items" :=
  loadShowsLoop_exhaustion_aborts_run srcExhaust 4 qM []
    { Page := 1, PageSize := 10, Records := [hrM2noMatch] }
    (by decide) (by decide) (by decide)

/-! ## `ExecuteCommandAndWait` (RemoteCommandWaiter) -/

/-- Constant `api.CheckInterval` (`time.Second * 5`), in seconds. -/
def CheckInterval : Nat := 5

/-- Constant `api.MaxTime` (`time.Second * 30`), in seconds. -/
def MaxTime : Nat := 30

/-- Constant `api.DefaultRetries`. -/
def DefaultRetries : Nat := 3

/-- Number of poll iterations one attempt performs: the Go loop runs with
`totalWait = CheckInterval, 2*CheckInterval, ...` while
`totalWait <= MaxTime`, i.e. `MaxTime / CheckInterval` times. -/
def maxPolls : Nat := MaxTime / CheckInterval

/-- Inner polling loop of one submission attempt of
`ExecuteCommandAndWait`.  The server's successive `GetCommandStatus`
responses are the oracle `poll`, indexed by a global poll counter `k` (this
abstracts the transport and the threading of the command id through
repeated status fetches).  `slots` is the number of loop iterations left.
Returns the completed status, if one was seen, and the number of polls
performed; a poll that errors is skipped but still consumes its slot, as
elapsed wall time does in the Go loop. -/
def pollPhase (poll : Nat → Except String CommandStatus) :
    Nat → Nat → Option CommandStatus × Nat
  | 0, _ => (none, 0)
  | slots + 1, k =>
    match poll k with
    | .ok cs =>
      if cs.State = CommandStateCompleted then (some cs, 1)
      else ((pollPhase poll slots (k + 1)).1, (pollPhase poll slots (k + 1)).2 + 1)
    | .error _ =>
      ((pollPhase poll slots (k + 1)).1, (pollPhase poll slots (k + 1)).2 + 1)

/-- Outer retry loop of `ExecuteCommandAndWait`.  `submit` gives the
outcome of the `i`-th `ExecuteCommand` submission; a failed submission
consumes one attempt without polling (`continue`).  Returns the final
result together with the number of submission attempts made and the total
number of polls performed. -/
def ecwGo (submit poll : Nat → Except String CommandStatus) (name : String) :
    Nat → Nat → Nat → Except String CommandStatus × Nat × Nat
  | 0, _, _ => (.error ("timeout checking command " ++ name ++ ", not completed"), 0, 0)
  | n + 1, i, k =>
    match submit i with
    | .error _ =>
      ((ecwGo submit poll name n (i + 1) k).1,
        (ecwGo submit poll name n (i + 1) k).2.1 + 1,
        (ecwGo submit poll name n (i + 1) k).2.2)
    | .ok _ =>
      match pollPhase poll maxPolls k with
      | (some cs, polled) => (.ok cs, 1, polled)
      | (none, polled) =>
        ((ecwGo submit poll name n (i + 1) (k + polled)).1,
          (ecwGo submit poll name n (i + 1) (k + polled)).2.1 + 1,
          (ecwGo submit poll name n (i + 1) (k + polled)).2.2 + polled)

/-- Embedding of `API.ExecuteCommandAndWait` from the `api` package, with
its submission and polling traffic given by the oracles `submit` and
`poll`. -/
def ExecuteCommandAndWait (submit poll : Nat → Except String CommandStatus)
    (c : CommandBody) (retries : Nat) : Except String CommandStatus × Nat × Nat :=
  ecwGo submit poll c.Name retries 0 0

theorem pollPhase_completes (poll : Nat → Except String CommandStatus)
    (cFin : CommandStatus) (hcomp : cFin.State = CommandStateCompleted) :
    ∀ M slots k, M + 1 ≤ slots →
      (∀ j, j < M → ∃ st, poll (k + j) = .ok st ∧ st.State ≠ CommandStateCompleted) →
      poll (k + M) = .ok cFin →
      pollPhase poll slots k = (some cFin, M + 1) := by
  intro M
  induction M with
  | zero =>
    intro slots k hslots hpre hfin
    match slots, hslots with
    | slots + 1, _ =>
      rw [pollPhase]
      rw [show k + 0 = k from rfl] at hfin
      rw [hfin]
      simp [hcomp]
  | succ M ih =>
    intro slots k hslots hpre hfin
    match slots, hslots with
    | slots + 1, hslots =>
      rw [pollPhase]
      obtain ⟨st, hok, hnc⟩ := hpre 0 (Nat.succ_pos M)
      rw [show k + 0 = k from rfl] at hok
      rw [hok]
      simp only [hnc, if_false]
      have hrec : pollPhase poll slots (k + 1) = (some cFin, M + 1) := by
        apply ih slots (k + 1) (Nat.lt_succ_iff.mp hslots)
        · intro j hj
          have := hpre (j + 1) (Nat.succ_lt_succ hj)
          rwa [show k + (j + 1) = k + 1 + j by omega] at this
        · rwa [show k + 1 + M = k + (M + 1) by omega]
      rw [hrec]

theorem pollPhase_never (poll : Nat → Except String CommandStatus)
    (hnone : ∀ j st, poll j = .ok st → st.State ≠ CommandStateCompleted) :
    ∀ slots k, pollPhase poll slots k = (none, slots) := by
  intro slots
  induction slots with
  | zero => intro k; rfl
  | succ n ih =>
    intro k
    rw [pollPhase]
    cases hk : poll k with
    | error e => simp [ih]
    | ok st => simp [hnone k st hk, ih]

theorem ecwGo_timeout (submit poll : Nat → Except String CommandStatus)
    (name : String)
    (hnone : ∀ j st, poll j = .ok st → st.State ≠ CommandStateCompleted) :
    ∀ n i k, (ecwGo submit poll name n i k).1 =
        .error ("timeout checking command " ++ name ++ ", not completed") ∧
      (ecwGo submit poll name n i k).2.1 = n := by
  intro n
  induction n with
  | zero => intro i k; exact ⟨rfl, rfl⟩
  | succ n ih =>
    intro i k
    rw [ecwGo]
    cases hs : submit i with
    | error e => simpa using ⟨(ih (i + 1) k).1, (ih (i + 1) k).2⟩
    | ok cs =>
      rw [pollPhase_never poll hnone maxPolls k]
      simpa using ⟨(ih (i + 1) (k + maxPolls)).1, (ih (i + 1) (k + maxPolls)).2⟩

/-- Claim C9: if every poll succeeds, the first `M` report a non-completed
state and poll `M + 1` (1-indexed: the `N`-th, `N = M + 1`, with
`N * CheckInterval <= MaxTime`) reports "completed", then the waiter
returns that status as success after exactly `N` polls and a single
submission attempt; and if no successful poll ever reports "completed", it
submits exactly `retries` times and fails with the timeout error naming the
command. -/
theorem executeCommandAndWait_c9 (submit poll : Nat → Except String CommandStatus)
    (c : CommandBody) (retries M : Nat) (cs0 cFin : CommandStatus) :
    (1 ≤ retries → submit 0 = .ok cs0 →
      (∀ j, j < M → ∃ st, poll j = .ok st ∧ st.State ≠ CommandStateCompleted) →
      poll M = .ok cFin → cFin.State = CommandStateCompleted →
      (M + 1) * CheckInterval ≤ MaxTime →
      ExecuteCommandAndWait submit poll c retries = (.ok cFin, 1, M + 1)) ∧
    ((∀ j st, poll j = .ok st → st.State ≠ CommandStateCompleted) →
      (ExecuteCommandAndWait submit poll c retries).1 =
        .error ("timeout checking command " ++ c.Name ++ ", not completed") ∧
      (ExecuteCommandAndWait submit poll c retries).2.1 = retries) := by
  constructor
  · intro hret hsub hpre hfin hcomp hbound
    match retries, hret with
    | r + 1, _ =>
      unfold ExecuteCommandAndWait
      rw [ecwGo, hsub]
      have hslots : M + 1 ≤ maxPolls := by
        unfold maxPolls
        exact (Nat.le_div_iff_mul_le (by norm_num [CheckInterval])).mpr hbound
      have hph : pollPhase poll maxPolls 0 = (some cFin, M + 1) := by
        apply pollPhase_completes poll cFin hcomp M maxPolls 0 hslots
        · intro j hj; simpa using hpre j hj
        · simpa using hfin
      rw [hph]
  · intro hnone
    exact ecwGo_timeout submit poll c.Name hnone retries 0 0

/-- Polling oracle that reports "completed" on the third poll. -/
def pollW : Nat → Except String CommandStatus :=
  fun k => if k = 2 then .ok { ID := 1, State := "completed" }
    else .ok { ID := 1, State := "started" }

/-- Submission oracle that always succeeds. -/
def submitW : Nat → Except String CommandStatus :=
  fun _ => .ok { ID := 1, State := "queued" }

/-- Witness for claim C9 at a concrete input: completion on the third poll
(3 * 5 <= 30) yields success after exactly 3 polls and 1 submission. -/
theorem executeCommandAndWait_c9_witness :
    ExecuteCommandAndWait submitW pollW { Name := "RescanSeries" } 3 =
      (.ok { ID := 1, State := "completed" }, 1, 3) :=
  (executeCommandAndWait_c9 submitW pollW { Name := "RescanSeries" } 3 2
      { ID := 1, State := "queued" } { ID := 1, State := "completed" }).1
    (by decide) (by decide)
    (fun j hj => ⟨{ ID := 1, State := "started" },
      by simp only [pollW]; rw [if_neg (by omega)],
      by decide⟩)
    (by decide) (by decide) (by decide)

/-! ## `locationOfFile` (recursive file search) -/

/- Filesystem tree for the recursive search of `locationOfFile`.  A node
is a named file or a named directory with an ordered forest of children;
the child order models the (lexical) order in which `filepath.Walk` visits
entries. -/
mutual
inductive FSTree where
  | file : String → FSTree
  | dir : String → FSForest → FSTree
inductive FSForest where
  | nil : FSForest
  | cons : FSTree → FSForest → FSForest
end

/-- Base name of a tree node (`info.Name()` for the walked entry). -/
def FSTree.name : FSTree → String
  | .file n => n
  | .dir n _ => n

/- Embedding of the `filepath.Walk` callback of `locationOfFile`: visit
the entry at path `p` first, then (for an unmatched directory) its children
at `p ++ "/" ++ childName`; the first entry whose base name equals
`filename` stops the walk (the Go callback returns a sentinel error), and a
matched entry of any kind — directory included — is accepted.  For the root
node `p` is the `root` argument itself, as `filepath.Walk` passes it. -/
mutual
def findFirst (filename : String) : String → FSTree → Option String
  | p, .file n => if n = filename then some p else none
  | p, .dir n children =>
    if n = filename then some p else findFirstList filename p children
def findFirstList (filename : String) : String → FSForest → Option String
  | _, .nil => none
  | p, .cons c rest =>
    match findFirst filename (p ++ "/" ++ c.name) c with
    | some loc => some loc
    | none => findFirstList filename p rest
end

/- All entries of the walk in visit order, as (path, base name) pairs. -/
mutual
def entriesT (p : String) : FSTree → List (String × String)
  | .file n => [(p, n)]
  | .dir n children => (p, n) :: entriesF p children
def entriesF (p : String) : FSForest → List (String × String)
  | .nil => []
  | .cons c rest => entriesT (p ++ "/" ++ c.name) c ++ entriesF p rest
end

/-- Embedding of `locationOfFile` from `renamer.go`: run the walk; if the
recorded location is still the empty string afterwards, report the
not-found error naming the filename and the root. -/
def locationOfFile (root : String) (t : FSTree) (filename : String) :
    Except String String :=
  if ((findFirst filename root t).getD "") = "" then
    .error (filename ++ " doesn't exists inside " ++ root)
  else .ok ((findFirst filename root t).getD "")

mutual
theorem findFirst_spec (filename : String) : ∀ (p : String) (t : FSTree),
    findFirst filename p t =
      ((entriesT p t).find? (fun e => e.2 == filename)).map (fun e => e.1)
  | p, .file n => by
    by_cases h : n = filename <;>
      simp [findFirst, entriesT, List.find?_cons, h]
  | p, .dir n children => by
    by_cases h : n = filename
    · simp [findFirst, entriesT, List.find?_cons, h]
    · rw [findFirst, if_neg h, entriesT, List.find?_cons_of_neg _ (by simp [h])]
      exact findFirstList_spec filename p children
theorem findFirstList_spec (filename : String) : ∀ (p : String) (f : FSForest),
    findFirstList filename p f =
      ((entriesF p f).find? (fun e => e.2 == filename)).map (fun e => e.1)
  | p, .nil => by simp [findFirstList, entriesF]
  | p, .cons c rest => by
    rw [findFirstList, entriesF, List.find?_append]
    rw [findFirst_spec filename (p ++ "/" ++ c.name) c]
    cases hc : (entriesT (p ++ "/" ++ c.name) c).find? (fun e => e.2 == filename) with
    | some e => simp
    | none => simp [findFirstList_spec filename p rest]
end

mutual
theorem entriesT_path_ne (filename : String) : ∀ (p : String) (t : FSTree)
    (e : String × String), p ≠ "" → e ∈ entriesT p t → e.1 ≠ ""
  | p, .file n => by
    intro e hp he
    simp only [entriesT, List.mem_singleton] at he
    subst he
    exact hp
  | p, .dir n children => by
    intro e hp he
    simp only [entriesT, List.mem_cons] at he
    rcases he with he | he
    · subst he; exact hp
    · exact entriesF_path_ne filename p children e hp he
theorem entriesF_path_ne (filename : String) : ∀ (p : String) (f : FSForest)
    (e : String × String), p ≠ "" → e ∈ entriesF p f → e.1 ≠ ""
  | p, .nil => by intro e hp he; simp [entriesF] at he
  | p, .cons c rest => by
    intro e hp he
    simp only [entriesF, List.mem_append] at he
    rcases he with he | he
    · refine entriesT_path_ne filename (p ++ "/" ++ c.name) c e ?_ he
      intro hcon
      have hlen := congrArg String.length hcon
      rw [String.length_append, String.length_append] at hlen
      have hone : ("/" : String).length = 1 := rfl
      have hzero : ("" : String).length = 0 := rfl
      simp only [hone, hzero] at hlen
      omega
    · exact entriesF_path_ne filename p rest e hp he
end

/-- Claim C10: the recursive search returns the path of the first entry in
walk order — an entry of any kind, directories included — whose base name
equals the guessed filename, and when no entry in the subtree has that
name it fails with the not-found error naming the filename and the root. -/
theorem locationOfFile_c10 (root : String) (t : FSTree) (filename : String)
    (hroot : root ≠ "") :
    locationOfFile root t filename =
      match (entriesT root t).find? (fun e => e.2 == filename) with
      | some e => .ok e.1
      | none => .error (filename ++ " doesn't exists inside " ++ root) := by
  unfold locationOfFile
  rw [findFirst_spec filename root t]
  cases hf : (entriesT root t).find? (fun e => e.2 == filename) with
  | none => simp
  | some e =>
    have hmem := List.mem_of_find?_eq_some hf
    have hne : e.1 ≠ "" := entriesT_path_ne filename root t e hroot hmem
    simp [hne]

/-- Concrete tree used by the `locationOfFile` witness: the match is a
directory, demonstrating that any entry kind is accepted. -/
def treeW : FSTree :=
  .dir "dl" (.cons (.dir "Show.S02E05" .nil) (.cons (.file "a.mkv") .nil))

/-- Witness for claim C10 at a concrete input. -/
theorem locationOfFile_c10_witness :
    locationOfFile "/dl" treeW "Show.S02E05" =
      match (entriesT "/dl" treeW).find? (fun e => e.2 == "Show.S02E05") with
      | some e => .ok e.1
      | none => .error ("Show.S02E05" ++ " doesn't exists inside " ++ "/dl") :=
  locationOfFile_c10 "/dl" treeW "Show.S02E05" (by decide)

/-! ## Regex machinery shared by `guessFileName` and `guessFinalName` -/

theorem isPrefixOf_iff (l : List Char) : ∀ t : List Char,
    l.isPrefixOf t = true ↔ ∃ u, t = l ++ u := by
  induction l with
  | nil =>
    intro t
    simp only [List.isPrefixOf, List.nil_append]
    exact ⟨fun _ => ⟨t, rfl⟩, fun _ => trivial⟩
  | cons a as ih =>
    intro t
    cases t with
    | nil =>
      simp only [List.isPrefixOf]
      constructor
      · intro h; exact absurd h (by simp)
      · rintro ⟨u, hu⟩; exact absurd hu (by simp)
    | cons b bs =>
      simp only [List.isPrefixOf, Bool.and_eq_true, beq_iff_eq, ih bs]
      constructor
      · rintro ⟨rfl, u, rfl⟩; exact ⟨u, rfl⟩
      · rintro ⟨u, hu⟩
        rw [List.cons_append] at hu
        injection hu with h1 h2
        exact ⟨h1.symm, u, h2⟩

/-- Helper: taking one element past a front segment. -/
theorem take_append_one (mid : List Char) (b : Char) (rest : List Char) :
    (mid ++ b :: rest).take (mid.length + 1) = mid ++ [b] := by
  induction mid with
  | nil => rfl
  | cons x xs ih => simpa [List.take_succ_cons] using ih

/-! ### The `%d.{0,4}%d` matcher of `guessFileName` -/

/-- Gap search for the regex fragment `.{0,4}` followed by the literal
`ed`: from the current position, after consuming at most `budget` non-newline
characters (Go regexp `.` does not match a newline), the literal `ed` must
occur. -/
def gapSearch (ed : List Char) : Nat → List Char → Bool
  | 0, cs => ed.isPrefixOf cs
  | _ + 1, [] => ed.isPrefixOf []
  | b + 1, c :: rest =>
    ed.isPrefixOf (c :: rest) || (!(c == '\n') && gapSearch ed b rest)

/-- Match of the whole pattern `sd.{0,4}ed` anchored at the current
position: the literal `sd` followed by a gap of at most 4 characters and
the literal `ed`. -/
def seFrom (sd ed cs : List Char) : Bool :=
  sd.isPrefixOf cs && gapSearch ed 4 (cs.drop sd.length)

/-- Unanchored match (`regexp.MatchString`) of `sd.{0,4}ed`: some suffix
position matches. -/
def regexMatchSE (sd ed : List Char) : List Char → Bool
  | [] => seFrom sd ed []
  | c :: rest => seFrom sd ed (c :: rest) || regexMatchSE sd ed rest

/-- Specification-side reading of the `guessFileName` pattern: the title
contains the literal season digits and the literal episode digits separated
by 0-4 characters (none of which is a newline, which Go regexp `.` does not
match). -/
def SEPat (sd ed cs : List Char) : Prop :=
  ∃ pre mid post, cs = pre ++ (sd ++ (mid ++ (ed ++ post))) ∧
    mid.length ≤ 4 ∧ ∀ c ∈ mid, c ≠ '\n'

theorem gapSearch_decomp (ed : List Char) :
    ∀ b cs, gapSearch ed b cs = true →
      ∃ mid post, cs = mid ++ (ed ++ post) ∧ mid.length ≤ b ∧ ∀ c ∈ mid, c ≠ '\n' := by
  intro b
  induction b with
  | zero =>
    intro cs h
    rw [gapSearch] at h
    obtain ⟨u, rfl⟩ := (isPrefixOf_iff _ _).mp h
    exact ⟨[], u, by simp, by simp, by simp⟩
  | succ b ih =>
    intro cs h
    cases cs with
    | nil =>
      rw [gapSearch] at h
      obtain ⟨u, hu⟩ := (isPrefixOf_iff _ _).mp h
      exact ⟨[], u, by simpa using hu, by simp, by simp⟩
    | cons c rest =>
      rw [gapSearch] at h
      rcases Bool.or_eq_true_iff.mp h with hp | hm
      · obtain ⟨u, hu⟩ := (isPrefixOf_iff _ _).mp hp
        exact ⟨[], u, by simpa using hu, by simp, by simp⟩
      · obtain ⟨hc, hrest⟩ := Bool.and_eq_true_iff.mp hm
        obtain ⟨mid, post, rfl, hlen, hnl⟩ := ih rest hrest
        refine ⟨c :: mid, post, rfl, by simpa using hlen, ?_⟩
        intro x hx
        rcases List.mem_cons.mp hx with rfl | hx
        · simpa using hc
        · exact hnl x hx

theorem gapSearch_of_decomp (ed : List Char) :
    ∀ (mid : List Char) (b : Nat) (post : List Char), mid.length ≤ b →
      (∀ c ∈ mid, c ≠ '\n') → gapSearch ed b (mid ++ (ed ++ post)) = true := by
  intro mid
  induction mid with
  | nil =>
    intro b post _ _
    have hp : ed.isPrefixOf (ed ++ post) = true := (isPrefixOf_iff _ _).mpr ⟨post, rfl⟩
    cases b with
    | zero => rw [gapSearch]; simp only [List.nil_append]; exact hp
    | succ b =>
      cases hcase : (ed ++ post : List Char) with
      | nil => simpa [gapSearch, hcase] using hp
      | cons x xs =>
        show gapSearch ed (b + 1) (x :: xs) = true
        rw [gapSearch, ← hcase, hp]
        rfl
  | cons c mid ih =>
    intro b post hlen hnl
    match b, hlen with
    | b + 1, hlen =>
      rw [show (c :: mid) ++ (ed ++ post) = c :: (mid ++ (ed ++ post)) from rfl]
      rw [gapSearch]
      refine Bool.or_eq_true_iff.mpr (Or.inr ?_)
      refine Bool.and_eq_true_iff.mpr ⟨?_, ?_⟩
      · have : c ≠ '\n' := hnl c (List.mem_cons_self c mid)
        simpa using this
      · exact ih b post (Nat.le_of_succ_le_succ (by simpa using hlen)) fun x hx =>
          hnl x (List.mem_cons_of_mem c hx)

theorem seFrom_iff (sd ed cs : List Char) :
    seFrom sd ed cs = true ↔
      ∃ mid post, cs = sd ++ (mid ++ (ed ++ post)) ∧ mid.length ≤ 4 ∧
        ∀ c ∈ mid, c ≠ '\n' := by
  unfold seFrom
  constructor
  · intro h
    obtain ⟨hp, hg⟩ := Bool.and_eq_true_iff.mp h
    obtain ⟨u, rfl⟩ := (isPrefixOf_iff _ _).mp hp
    rw [List.drop_left] at hg
    obtain ⟨mid, post, rfl, hlen, hnl⟩ := gapSearch_decomp ed 4 u hg
    exact ⟨mid, post, rfl, hlen, hnl⟩
  · rintro ⟨mid, post, rfl, hlen, hnl⟩
    refine Bool.and_eq_true_iff.mpr ⟨?_, ?_⟩
    · exact (isPrefixOf_iff _ _).mpr ⟨mid ++ (ed ++ post), rfl⟩
    · rw [List.drop_left]
      exact gapSearch_of_decomp ed mid 4 post hlen hnl

theorem regexMatchSE_iff (sd ed : List Char) :
    ∀ cs, regexMatchSE sd ed cs = true ↔ SEPat sd ed cs := by
  intro cs
  induction cs with
  | nil =>
    rw [regexMatchSE, seFrom_iff]
    constructor
    · rintro ⟨mid, post, h, hlen, hnl⟩
      exact ⟨[], mid, post, by simpa using h, hlen, hnl⟩
    · rintro ⟨pre, mid, post, h, hlen, hnl⟩
      cases pre with
      | nil => exact ⟨mid, post, by simpa using h, hlen, hnl⟩
      | cons x xs => exact absurd h (by simp)
  | cons c rest ih =>
    rw [regexMatchSE]
    simp only [Bool.or_eq_true, ih, seFrom_iff]
    constructor
    · rintro (⟨mid, post, h, hlen, hnl⟩ | ⟨pre, mid, post, h, hlen, hnl⟩)
      · exact ⟨[], mid, post, by simpa using h, hlen, hnl⟩
      · exact ⟨c :: pre, mid, post, by rw [List.cons_append, ← h], hlen, hnl⟩
    · rintro ⟨pre, mid, post, h, hlen, hnl⟩
      cases pre with
      | nil => exact Or.inl ⟨mid, post, by simpa using h, hlen, hnl⟩
      | cons x xs =>
        rw [List.cons_append] at h
        injection h with h1 h2
        exact Or.inr ⟨xs, mid, post, h2, hlen, hnl⟩

/-- First index at which a predicate holds determines `find?`. -/
theorem find?_eq_of_first {α : Type} (p : α → Bool) :
    ∀ (l : List α) (i : Nat) (hi : i < l.length),
      p (l.get ⟨i, hi⟩) = true →
      (∀ j (hj : j < i), p (l.get ⟨j, Nat.lt_trans hj hi⟩) = false) →
      l.find? p = some (l.get ⟨i, hi⟩) := by
  intro l
  induction l with
  | nil => intro i hi; exact absurd hi (by simp)
  | cons a as ih =>
    intro i hi hp hmin
    cases i with
    | zero => exact List.find?_cons_of_pos _ hp
    | succ i =>
      have h0 : p a = false := hmin 0 (Nat.succ_pos i)
      rw [List.find?_cons_of_neg _ (by simp [h0])]
      exact ih i (Nat.lt_of_succ_lt_succ hi) hp
        (fun j hj => hmin (j + 1) (Nat.succ_lt_succ hj))

/-! ### `guessFileName` (on-disk filename guess) -/

/-- Embedding of `Show.guessFileName` from `renamer.go`: with exactly one
status message its title is returned verbatim (`StatusMessages[0]`),
otherwise the first status message whose title matches the regex
`<season>.{0,4}<episode>` (season and episode printed with `%d`) wins, and
with no match the error names the queue entry's title. -/
def guessFileName (s : Show) : Except String String :=
  if s.QueueElement.StatusMessages.length = 1 then
    .ok (s.QueueElement.StatusMessages.headD ⟨""⟩).Title
  else
    match s.QueueElement.StatusMessages.find? (fun m =>
        regexMatchSE (toString s.QueueElement.Episode.SeasonNumber).data
          (toString s.QueueElement.Episode.EpisodeNumber).data m.Title.data) with
    | some m => .ok m.Title
    | none => .error ("imposible to guess file name for " ++ s.QueueElement.Title)

/-- Claim C7: with exactly one status message the guess is its title
verbatim; otherwise it is the title of the first status message containing
the literal season number and episode number separated by 0-4 characters
(Go regexp `.`, which excludes newlines), and with no matching message it
fails with the error naming the entry. -/
theorem guessFileName_c7 (s : Show) :
    (∀ m, s.QueueElement.StatusMessages = [m] → guessFileName s = .ok m.Title) ∧
    (s.QueueElement.StatusMessages.length ≠ 1 →
      ((∀ m ∈ s.QueueElement.StatusMessages,
          ¬ SEPat (toString s.QueueElement.Episode.SeasonNumber).data
            (toString s.QueueElement.Episode.EpisodeNumber).data m.Title.data) →
        guessFileName s =
          .error ("imposible to guess file name for " ++ s.QueueElement.Title)) ∧
      (∀ i (hi : i < s.QueueElement.StatusMessages.length),
        SEPat (toString s.QueueElement.Episode.SeasonNumber).data
          (toString s.QueueElement.Episode.EpisodeNumber).data
          ((s.QueueElement.StatusMessages.get ⟨i, hi⟩).Title.data) →
        (∀ j (hj : j < i),
          ¬ SEPat (toString s.QueueElement.Episode.SeasonNumber).data
            (toString s.QueueElement.Episode.EpisodeNumber).data
            ((s.QueueElement.StatusMessages.get ⟨j, Nat.lt_trans hj hi⟩).Title.data)) →
        guessFileName s = .ok (s.QueueElement.StatusMessages.get ⟨i, hi⟩).Title)) := by
  refine ⟨?_, fun hlen => ⟨?_, ?_⟩⟩
  · intro m hm
    unfold guessFileName
    rw [hm]
    rfl
  · intro hall
    unfold guessFileName
    rw [if_neg hlen]
    have hnone : s.QueueElement.StatusMessages.find? (fun m =>
        regexMatchSE (toString s.QueueElement.Episode.SeasonNumber).data
          (toString s.QueueElement.Episode.EpisodeNumber).data m.Title.data) = none := by
      rw [List.find?_eq_none]
      intro m hm
      simp only [Bool.not_eq_true]
      rw [← Bool.not_eq_true]
      intro hmatch
      exact hall m hm ((regexMatchSE_iff _ _ _).mp hmatch)
    rw [hnone]
  · intro i hi hp hmin
    unfold guessFileName
    rw [if_neg hlen]
    rw [find?_eq_of_first _ s.QueueElement.StatusMessages i hi
      (by exact (regexMatchSE_iff _ _ _).mpr hp)
      (fun j hj => by
        rw [← Bool.not_eq_true]
        intro hmatch
        exact hmin j hj ((regexMatchSE_iff _ _ _).mp hmatch))]

/-- Concrete show with two status messages, only the second matching the
season-episode pattern. -/
def showW7 : Show :=
  { HistoryRecord :=
      { DownloadID := "d", SourceTitle := "x", TrackedDownloadStatus := "Warning",
        Episode := { SeasonNumber := 1, EpisodeNumber := 2 } },
    QueueElement :=
      { ID := 3, DownloadID := "d", Title := "T", Status := "Completed",
        TrackedDownloadStatus := "Warning",
        Episode := { SeasonNumber := 1, EpisodeNumber := 2 },
        Series := { Path := "/tv" },
        StatusMessages := [{ Title := "foo" }, { Title := "T1x2" }] },
    HasBeenRenamed := false }

/-- Witness for claim C7 at a concrete input: two messages, the second is
the first one matching "1.{0,4}2" and is returned. -/
theorem guessFileName_c7_witness : guessFileName showW7 = .ok "T1x2" := by
  refine ((guessFileName_c7 showW7).2 (by decide)).2 1 (by decide)
    ⟨['T'], ['x'], [], by decide, by decide, by decide⟩ ?_
  intro j hj hpat
  have hj0 : j = 0 := by omega
  subst hj0
  have hb : regexMatchSE (toString showW7.QueueElement.Episode.SeasonNumber).data
      (toString showW7.QueueElement.Episode.EpisodeNumber).data
      (String.data "foo") = true := (regexMatchSE_iff _ _ _).mpr hpat
  exact absurd hb (by decide)

/-! ### `guessFinalName` (corrected filename guess) -/

/-- Character class `[.\-_ ]` (the separators of the `guessFinalName`
regex). -/
def sepChar (c : Char) : Bool :=
  c == '.' || c == '-' || c == '_' || c == ' '

/-- Character class `[\-_0-9sSeExX]` (the inner run of the `guessFinalName`
regex). -/
def tagChar (c : Char) : Bool :=
  c == '-' || c == '_' || c.isDigit || c == 's' || c == 'S' ||
    c == 'e' || c == 'E' || c == 'x' || c == 'X'

/-- At the current position: `n` class characters followed by a closing
separator (the part of a match after its opening separator). -/
def tagRunAt (cs : List Char) (n : Nat) : Bool :=
  (cs.take n).all tagChar &&
    (match cs.drop n with
     | c :: _ => sepChar c
     | [] => false)

/-- Inner run lengths in the order the leftmost-first (greedy) matching of
`{2,10}` tries them: longest first. -/
def greedyLens : List Nat := [10, 9, 8, 7, 6, 5, 4, 3, 2]

/-- Longest inner run length producing a match at the current position. -/
def greedyLen (cs : List Char) : Option Nat := greedyLens.find? (tagRunAt cs)

/-- Embedding of `regexp.FindString` for the `guessFinalName` pattern
`[.\-_ ]([\-_0-9sSeExX]{2,10})[.\-_ ]`: scan start positions left to right;
at the first position opening with a separator and admitting an inner run,
return the matched text (opening separator, greedy-longest run, closing
separator).  `MatchString` succeeds exactly when this returns `some`. -/
def findTag : List Char → Option (List Char)
  | [] => none
  | c :: rest =>
    if sepChar c then
      match greedyLen rest with
      | some n => some (c :: rest.take (n + 1))
      | none => findTag rest
    else findTag rest

/-- Embedding of `strings.Replace(s, pat, rep, 1)`: replace the first
occurrence of `pat` in `s` by `rep`. -/
def replaceFirst (pat rep : List Char) : List Char → List Char
  | [] => if pat.isPrefixOf [] then rep else []
  | c :: rest =>
    if pat.isPrefixOf (c :: rest) then rep ++ (c :: rest).drop pat.length
    else c :: replaceFirst pat rep rest

/-- Go `%.2d`: at least two digits, zero padded. -/
def pad2 (n : Nat) : String := if n < 10 then "0" ++ toString n else toString n

/-- The canonical replacement fragment `.S%.2dE%.2d.` of `guessFinalName`. -/
def canonicalTag (e : Episode) : String :=
  ".S" ++ pad2 e.SeasonNumber ++ "E" ++ pad2 e.EpisodeNumber ++ "."

/-- Embedding of `Show.guessFinalName` from `renamer.go`: with exactly one
status message the history record's source title is returned unchanged;
otherwise the source title must contain a match of the tag-fragment regex,
whose first occurrence is replaced by the canonical fragment, and with no
match the error names the guessed `filename` argument. -/
def guessFinalName (s : Show) (filename : String) : Except String String :=
  if s.QueueElement.StatusMessages.length = 1 then .ok s.HistoryRecord.SourceTitle
  else
    match findTag s.HistoryRecord.SourceTitle.data with
    | none => .error ("unable to guess final episode name of " ++ filename)
    | some m =>
      .ok (String.mk (replaceFirst m (canonicalTag s.QueueElement.Episode).data
        s.HistoryRecord.SourceTitle.data))

/-- Specification-side reading of the tag-fragment pattern: the text
contains, between two separator characters, a run of `lo` to 10 characters
drawn from digits, s/S, e/E, x/X, hyphen and underscore. -/
def HasFragment (lo : Nat) (cs : List Char) : Prop :=
  ∃ pre a mid b post, cs = pre ++ a :: (mid ++ b :: post) ∧
    sepChar a = true ∧ sepChar b = true ∧ mid.all tagChar = true ∧
    lo ≤ mid.length ∧ mid.length ≤ 10

theorem tagRunAt_decomp (cs : List Char) (n : Nat) (h : tagRunAt cs n = true) :
    ∃ mid b rest, cs = mid ++ b :: rest ∧ mid.length = n ∧
      mid.all tagChar = true ∧ sepChar b = true := by
  unfold tagRunAt at h
  obtain ⟨hall, hdrop⟩ := Bool.and_eq_true_iff.mp h
  cases hd : cs.drop n with
  | nil => rw [hd] at hdrop; exact absurd hdrop (by simp)
  | cons b rest =>
    rw [hd] at hdrop
    have hlen : n ≤ cs.length := by
      by_contra hlt
      push_neg at hlt
      rw [List.drop_eq_nil_of_le (Nat.le_of_lt hlt)] at hd
      exact List.noConfusion hd
    refine ⟨cs.take n, b, rest, ?_, ?_, hall, hdrop⟩
    · conv_lhs => rw [← List.take_append_drop n cs]
      rw [hd]
    · simp [List.length_take, Nat.min_eq_left hlen]

theorem tagRunAt_of_decomp (mid : List Char) (b : Char) (rest : List Char)
    (hall : mid.all tagChar = true) (hb : sepChar b = true) :
    tagRunAt (mid ++ b :: rest) mid.length = true := by
  unfold tagRunAt
  rw [List.take_left, List.drop_left]
  simp [hall, hb]

theorem greedyLen_none (cs : List Char) (h : greedyLen cs = none) :
    ∀ n, 2 ≤ n → n ≤ 10 → tagRunAt cs n = false := by
  intro n h2 h10
  have hmem : n ∈ greedyLens := by
    unfold greedyLens
    interval_cases n <;> simp
  have := List.find?_eq_none.mp h n hmem
  simpa using this

theorem greedyLen_some (cs : List Char) (n : Nat) (h : greedyLen cs = some n) :
    tagRunAt cs n = true ∧ 2 ≤ n ∧ n ≤ 10 := by
  refine ⟨List.find?_some h, ?_, ?_⟩ <;>
  · have hmem := List.mem_of_find?_eq_some h
    unfold greedyLens at hmem
    fin_cases hmem <;> omega

theorem hasFragment_nil (lo : Nat) : ¬ HasFragment lo [] := by
  rintro ⟨pre, a, mid, b, post, h, -, -, -, -, -⟩
  exact absurd h (by simp)

theorem hasFragment_cons (lo : Nat) (c : Char) (cs : List Char) :
    HasFragment lo (c :: cs) ↔
      (sepChar c = true ∧ ∃ n, lo ≤ n ∧ n ≤ 10 ∧ tagRunAt cs n = true) ∨
        HasFragment lo cs := by
  constructor
  · rintro ⟨pre, a, mid, b, post, h, ha, hb, hall, hlo, hhi⟩
    cases pre with
    | nil =>
      rw [List.nil_append] at h
      injection h with h1 h2
      subst h1
      refine Or.inl ⟨ha, mid.length, hlo, hhi, ?_⟩
      rw [h2]
      exact tagRunAt_of_decomp mid b post hall hb
    | cons x xs =>
      rw [List.cons_append] at h
      injection h with h1 h2
      exact Or.inr ⟨xs, a, mid, b, post, h2, ha, hb, hall, hlo, hhi⟩
  · rintro (⟨hc, n, hlo, hhi, hrun⟩ | ⟨pre, a, mid, b, post, h, ha, hb, hall, hlo, hhi⟩)
    · obtain ⟨mid, b, rest, hcs, hlen, hall, hb⟩ := tagRunAt_decomp cs n hrun
      exact ⟨[], c, mid, b, rest, by rw [List.nil_append, hcs], hc, hb, hall,
        by omega, by omega⟩
    · exact ⟨c :: pre, a, mid, b, post, by rw [List.cons_append, h], ha, hb,
        hall, hlo, hhi⟩

theorem findTag_none (cs : List Char) (h : findTag cs = none) :
    ¬ HasFragment 2 cs := by
  induction cs with
  | nil => exact hasFragment_nil 2
  | cons c rest ih =>
    rw [findTag] at h
    intro hf
    rcases (hasFragment_cons 2 c rest).mp hf with ⟨hc, n, h2, h10, hrun⟩ | hf2
    · rw [if_pos hc] at h
      cases hg : greedyLen rest with
      | some m => rw [hg] at h; exact Option.noConfusion h
      | none => exact absurd (greedyLen_none rest hg n h2 h10) (by simp [hrun])
    · by_cases hc : sepChar c = true
      · rw [if_pos hc] at h
        cases hg : greedyLen rest with
        | some m => rw [hg] at h; exact Option.noConfusion h
        | none => rw [hg] at h; exact ih h hf2
      · rw [if_neg hc] at h
        exact ih h hf2

theorem findTag_some_hasFragment (cs : List Char) :
    ∀ m, findTag cs = some m → HasFragment 2 cs := by
  induction cs with
  | nil => intro m h; exact absurd h (by simp [findTag])
  | cons c rest ih =>
    intro m h
    rw [findTag] at h
    by_cases hc : sepChar c = true
    · rw [if_pos hc] at h
      cases hg : greedyLen rest with
      | some n =>
        obtain ⟨hrun, h2, h10⟩ := greedyLen_some rest n hg
        exact (hasFragment_cons 2 c rest).mpr (Or.inl ⟨hc, n, h2, h10, hrun⟩)
      | none =>
        rw [hg] at h
        exact (hasFragment_cons 2 c rest).mpr (Or.inr (ih m h))
    · rw [if_neg hc] at h
      exact (hasFragment_cons 2 c rest).mpr (Or.inr (ih m h))

theorem findTag_some_occurs (cs : List Char) :
    ∀ m, findTag cs = some m → ∃ pre post, cs = pre ++ (m ++ post) := by
  induction cs with
  | nil => intro m h; exact absurd h (by simp [findTag])
  | cons c rest ih =>
    intro m h
    rw [findTag] at h
    by_cases hc : sepChar c = true
    · rw [if_pos hc] at h
      cases hg : greedyLen rest with
      | some n =>
        rw [hg] at h
        injection h with hm
        obtain ⟨hrun, h2, h10⟩ := greedyLen_some rest n hg
        obtain ⟨mid, b, rest2, hrest, hlen, -, -⟩ := tagRunAt_decomp rest n hrun
        refine ⟨[], rest2, ?_⟩
        rw [List.nil_append, ← hm, hrest, ← hlen, take_append_one]
        simp
      | none =>
        rw [hg] at h
        obtain ⟨pre, post, hrest⟩ := ih m h
        exact ⟨c :: pre, post, by rw [List.cons_append, hrest]⟩
    · rw [if_neg hc] at h
      obtain ⟨pre, post, hrest⟩ := ih m h
      exact ⟨c :: pre, post, by rw [List.cons_append, hrest]⟩

theorem replaceFirst_spec (pat rep : List Char) :
    ∀ s pre post, s = pre ++ (pat ++ post) →
      ∃ pre2 post2, s = pre2 ++ (pat ++ post2) ∧
        replaceFirst pat rep s = pre2 ++ (rep ++ post2) ∧
        ∀ pre3 post3, s = pre3 ++ (pat ++ post3) → pre2.length ≤ pre3.length := by
  intro s
  induction s with
  | nil =>
    intro pre post h
    have hpre : pre = [] := by cases pre with
      | nil => rfl
      | cons x xs => exact absurd h (by simp)
    subst hpre
    rw [List.nil_append] at h
    have hpat : pat = [] := by cases pat with
      | nil => rfl
      | cons x xs => exact absurd h (by simp)
    subst hpat
    refine ⟨[], [], by simp, ?_, fun _ _ _ => Nat.zero_le _⟩
    rw [replaceFirst]
    simp [List.isPrefixOf]
  | cons c rest ih =>
    intro pre post h
    by_cases hp : pat.isPrefixOf (c :: rest) = true
    · obtain ⟨u, hu⟩ := (isPrefixOf_iff _ _).mp hp
      refine ⟨[], u, by simpa using hu, ?_, fun _ _ _ => Nat.zero_le _⟩
      rw [replaceFirst, if_pos hp, hu, List.drop_left]
      simp
    · cases pre with
      | nil =>
        exact absurd ((isPrefixOf_iff _ _).mpr ⟨post, by simpa using h⟩) hp
      | cons x xs =>
        rw [List.cons_append] at h
        injection h with h1 h2
        obtain ⟨pre2, post2, heq, hrepl, hmin⟩ := ih xs post h2
        subst h1
        refine ⟨c :: pre2, post2, by rw [List.cons_append, heq], ?_, ?_⟩
        · rw [replaceFirst, if_neg hp, hrepl, List.cons_append]
        · intro pre3 post3 h3
          cases pre3 with
          | nil =>
            exact absurd ((isPrefixOf_iff _ _).mpr ⟨post3, by simpa using h3⟩) hp
          | cons y ys =>
            rw [List.cons_append] at h3
            injection h3 with h31 h32
            simpa using Nat.succ_le_succ (hmin ys post3 h32)

/-- Claim C4 (amended): for a queue entry without exactly one status
message, the corrected-name guess succeeds exactly when the source title
contains a fragment of 2-10 (not 1-10) characters drawn from digits, s/S,
e/E, x/X, hyphen and underscore enclosed between separators; with no such
fragment it fails with the error naming the guessed filename; and on
success the first occurrence of the leftmost (greedy-longest) matched
fragment is replaced by the canonical `.S<2-digit>E<2-digit>.` fragment. -/
theorem guessFinalName_c4 (s : Show) (filename : String)
    (h : s.QueueElement.StatusMessages.length ≠ 1) :
    ((∃ t, guessFinalName s filename = .ok t) ↔
      HasFragment 2 s.HistoryRecord.SourceTitle.data) ∧
    (¬ HasFragment 2 s.HistoryRecord.SourceTitle.data →
      guessFinalName s filename =
        .error ("unable to guess final episode name of " ++ filename)) ∧
    (∀ m, findTag s.HistoryRecord.SourceTitle.data = some m →
      ∃ pre post, s.HistoryRecord.SourceTitle.data = pre ++ (m ++ post) ∧
        (∀ pre2 post2, s.HistoryRecord.SourceTitle.data = pre2 ++ (m ++ post2) →
          pre.length ≤ pre2.length) ∧
        guessFinalName s filename =
          .ok (String.mk (pre ++ ((canonicalTag s.QueueElement.Episode).data ++ post)))) := by
  unfold guessFinalName
  rw [if_neg h]
  cases hft : findTag s.HistoryRecord.SourceTitle.data with
  | none =>
    refine ⟨?_, fun _ => rfl, fun m hm => absurd hm (by simp)⟩
    constructor
    · rintro ⟨t, ht⟩; exact absurd ht (by simp)
    · intro hf; exact absurd hf (findTag_none _ hft)
  | some m =>
    have hocc := findTag_some_occurs _ m hft
    obtain ⟨pre0, post0, h0⟩ := hocc
    obtain ⟨pre, post, heq, hrepl, hmin⟩ :=
      replaceFirst_spec m (canonicalTag s.QueueElement.Episode).data
        s.HistoryRecord.SourceTitle.data pre0 post0 h0
    refine ⟨?_, ?_, ?_⟩
    · exact ⟨fun _ => findTag_some_hasFragment _ m hft, fun _ => ⟨_, rfl⟩⟩
    · intro hnf; exact absurd (findTag_some_hasFragment _ m hft) hnf
    · intro m2 hm2
      injection hm2 with hm2
      subst hm2
      refine ⟨pre, post, heq, hmin, ?_⟩
      show Except.ok (String.mk (replaceFirst m
          (canonicalTag s.QueueElement.Episode).data
          s.HistoryRecord.SourceTitle.data)) =
        Except.ok (String.mk (pre ++ ((canonicalTag s.QueueElement.Episode).data ++ post)))
      rw [hrepl]

/-- Concrete show whose source title `.5.` holds a single-character
fragment between separators (two status messages force the regex path). -/
def showC4 : Show :=
  { HistoryRecord :=
      { DownloadID := "d", SourceTitle := ".5.", TrackedDownloadStatus := "Warning",
        Episode := { SeasonNumber := 2, EpisodeNumber := 5 } },
    QueueElement :=
      { ID := 1, DownloadID := "d", Title := "T", Status := "Completed",
        TrackedDownloadStatus := "Warning",
        Episode := { SeasonNumber := 2, EpisodeNumber := 5 },
        Series := { Path := "/tv" },
        StatusMessages := [{ Title := "a" }, { Title := "b" }] },
    HasBeenRenamed := false }

/-- Claim C4 counterexample: the source title ".5." contains a 1-character
fragment between separators — so under the claimed 1-10 character rule the
guess would succeed — yet the code fails: its regex requires 2-10
characters. -/
theorem guessFinalName_c4_counterexample :
    guessFinalName showC4 "orig" =
      .error "unable to guess final episode name of orig" ∧
    HasFragment 1 (String.data ".5.") :=
  ⟨by decide,
    ⟨[], '.', ['5'], '.', [], by decide, by decide, by decide, by decide,
      by decide, by decide⟩⟩

/-- Concrete show exercising the success path of `guessFinalName`. -/
def showC4W : Show :=
  { HistoryRecord :=
      { DownloadID := "d", SourceTitle := "A.S02E05.B",
        TrackedDownloadStatus := "Warning",
        Episode := { SeasonNumber := 2, EpisodeNumber := 5 } },
    QueueElement :=
      { ID := 1, DownloadID := "d", Title := "T", Status := "Completed",
        TrackedDownloadStatus := "Warning",
        Episode := { SeasonNumber := 2, EpisodeNumber := 5 },
        Series := { Path := "/tv" },
        StatusMessages := [{ Title := "a" }, { Title := "b" }] },
    HasBeenRenamed := false }

/-- Witness for the amended claim C4 at a concrete input. -/
theorem guessFinalName_c4_witness :
    HasFragment 2 (String.data "A.S02E05.B") :=
  (guessFinalName_c4 showC4W "f" (by decide)).1.mp ⟨"A.S02E05.B", by decide⟩

/-! ## `FixNaming` and `FixFailedShows` -/

/-- Embedding of Go `filepath.Ext`: the suffix starting at the final dot of
the final path element; empty when that element holds no dot. -/
def extOf (p : String) : String :=
  let rseg := p.data.reverse.takeWhile (fun c => !(c == '/'))
  if rseg.contains '.' then
    String.mk ((rseg.takeWhile (fun c => !(c == '.')) ++ ['.']).reverse)
  else ""

/-- Approximation of Go `path.Join` for the nonempty, already-clean path
segments this program produces: join with a single slash (`path.Join`'s
`Clean` normalization is not modelled). -/
def pathJoin (a b : String) : String :=
  if a = "" then b else if b = "" then a else a ++ "/" ++ b

/-- Static configuration and I/O oracles threaded through `FixNaming`: the
download folder (`os.Getenv` of the download-folder variable), the walked
directory tree, and the `moveFromTo` failure oracles. -/
structure Env where
  downloadFolder : String
  tree : FSTree
  createFails : Bool
  copyFail : Option Nat
  removeFails : Bool

/-- Embedding of `Show.FixNaming` from `renamer.go`.  The method has a
value receiver: it mutates only its local copy of the `Show`, so the `.ok`
payload below is that local copy at return (with `HasBeenRenamed` set on
full success of the move) — the Go caller discards it, and the caller's
`Show` is untouched. -/
def FixNaming (env : Env) (fs : FS) (s : Show) : FS × Except String Show :=
  match guessFileName s with
  | .error e => (fs, .error e)
  | .ok filename =>
    match locationOfFile env.downloadFolder env.tree filename with
    | .error e => (fs, .error e)
    | .ok oldPath =>
      match guessFinalName s filename with
      | .error e => (fs, .error e)
      | .ok finalName =>
        match moveFromTo fs env.createFails env.copyFail env.removeFails oldPath
            (pathJoin s.QueueElement.Series.Path (finalName ++ extOf oldPath)) with
        | (fs2, .error e) => (fs2, .error e)
        | (fs2, .ok _) => (fs2, .ok { s with HasBeenRenamed := true })

/-- Loop of `FixFailedShows`: `for _, s := range shows` iterates over value
copies and only logs errors, so the sole effect that survives an iteration
is the filesystem change; the slice elements are never written back. -/
def fixLoop (env : Env) : FS → List Show → FS
  | fs, [] => fs
  | fs, s :: rest => fixLoop env (FixNaming env fs s).1 rest

/-- Embedding of `FixFailedShows` from `renamer.go`: load the failed shows,
run `FixNaming` on (a value copy of) each, and return the show list —
which, because of the value receiver, is exactly the list `loadFailedShows`
produced. -/
def FixFailedShows (env : Env) (fs : FS) (src : Nat → History)
    (queue : List QueueElem) (fuel : Nat) : FS × Except String (List Show) :=
  match loadFailedShows src queue fuel with
  | .error e => (fs, .error e)
  | .ok shows => (fixLoop env fs shows, .ok shows)

/-- Queue entry for the C2 scenario (single status message naming the
on-disk file). -/
def qC2 : QueueElem :=
  { ID := 9, DownloadID := "dl9", Title := "ShowC", Status := "Completed",
    TrackedDownloadStatus := "Warning",
    Episode := { SeasonNumber := 2, EpisodeNumber := 5 },
    Series := { Path := "/tv/ShowC" },
    StatusMessages := [{ Title := "ShowC.S02E05.GRP.mkv" }] }

/-- History record matching `qC2`. -/
def hrC2 : HistoryRecord :=
  { DownloadID := "dl9", SourceTitle := "ShowC.S02E05.FIXED",
    TrackedDownloadStatus := "Warning",
    Episode := { SeasonNumber := 2, EpisodeNumber := 5 } }

/-- History source for the C2 scenario. -/
def srcC2 : Nat → History :=
  fun p => if p = 1 then { Page := 1, PageSize := 10, Records := [hrC2] }
    else { Page := p, PageSize := 0, Records := [] }

/-- Environment for the C2 scenario: the file is on disk and every I/O
step succeeds. -/
def envC2 : Env :=
  { downloadFolder := "/dl",
    tree := .dir "dl" (.cons (.file "ShowC.S02E05.GRP.mkv") .nil),
    createFails := false, copyFail := none, removeFails := false }

/-- Filesystem for the C2 scenario. -/
def fsC2 : FS :=
  fun p => if p = "/dl/ShowC.S02E05.GRP.mkv" then some [1, 2, 3] else none

/-- The matched show of the C2 scenario, as `loadFailedShows` creates it. -/
def showC2 : Show :=
  { HistoryRecord := hrC2, QueueElement := qC2, HasBeenRenamed := false }

/-- Claim C2 fails on the code: in a run where the move fully succeeds —
`FixNaming`'s local receiver copy comes back with `HasBeenRenamed = true` —
the caller-visible show returned by `FixFailedShows` still carries
`HasBeenRenamed = false`, because the Go method takes its receiver by value
and the loop ranges over copies.  The flag set inside `FixNaming` is lost
to every caller. -/
theorem fixFailedShows_flag_never_set :
    (FixNaming envC2 fsC2 showC2).2 =
      .ok { HistoryRecord := hrC2, QueueElement := qC2, HasBeenRenamed := true } ∧
    (FixFailedShows envC2 fsC2 srcC2 [qC2] 1).2 = .ok [showC2] ∧
    showC2.HasBeenRenamed = false :=
  ⟨by decide, by decide, rfl⟩

end Parserr
